import Mathlib

/-!
Shallow embedding of pytorchvideo/models/net.py: the three composition
wrappers Net (SequentialBlockNetwork), DetectionBBoxNetwork
(DetectionAugmentedNetwork) and MultiPathWayWithFuse
(MultiPathwayFuseNetwork), together with theorems settling the frozen
claims about them.

Python runtime errors are modelled by the PyErr type: the spec's
InvalidConfiguration and InvalidArgument both correspond to Python
AssertionError raised at the respective assert statements; calling an
absent (None) sub-module raises TypeError; indexing a list out of range
raises IndexError; an impossible tensor view raises RuntimeError.
Tensors are opaque to this layer; they are modelled by their shape and
flat row-major data. Sub-module stages are opaque functions on tensors.
-/

set_option autoImplicit false

namespace PTV

/-- Python runtime errors reachable from the code in net.py. -/
inductive PyErr where
  | assertionError
  | typeError
  | indexError
  | runtimeError
deriving Repr, DecidableEq

/-- A tensor, modelled as its shape and its flat row-major data.  Only
shape and data flow matter to the composition layer; dtypes and strides
are opaque. -/
structure Tensor where
  shape : List Nat
  data : List Int
deriving Repr, DecidableEq

/-- torch numel: total number of elements, the product of the dims. -/
def Tensor.numel (t : Tensor) : Nat := t.shape.prod

/-- `Net` (spec name SequentialBlockNetwork): holds the stored block list.
Each block is an opaque stage, a function from tensor to tensor. -/
structure Net where
  blocks : List (Tensor → Tensor)

/-- `Net.__init__`: `assert blocks is not None; self.blocks = blocks`.
The argument is an Option to model passing None; the assert rejects
exactly None, any present list (empty included) is stored. -/
def Net.construct (blocks : Option (List (Tensor → Tensor))) : Except PyErr Net :=
  match blocks with
  | none => .error .assertionError
  | some bs => .ok ⟨bs⟩

/-- `Net.forward`: `for idx in range(len(self.blocks)): x = self.blocks[idx](x)`,
a left-to-right pass of x through the stored blocks. -/
def Net.forward (n : Net) (x : Tensor) : Tensor :=
  n.blocks.foldl (fun t b => b t) x

/-- Observable events during Net construction and forward, used to state
the temporal claim about init_net_weights. -/
inductive NetEvent where
  | storeBlocks
  | initNetWeights
  | applyBlock
deriving Repr, DecidableEq

/-- `Net.__init__` with its event trace: on a present block list the
body runs `self.blocks = blocks` then `init_net_weights(self)`, in that
order; on None the assert fires before either event. -/
def Net.constructTrace (blocks : Option (List (Tensor → Tensor))) :
    List NetEvent × Except PyErr Net :=
  match blocks with
  | none => ([], .error .assertionError)
  | some bs => ([.storeBlocks, .initNetWeights], .ok ⟨bs⟩)

/-- `Net.forward` with its event trace: one block application per stored
block and nothing else; in particular no weight initialization. -/
def Net.forwardTrace (n : Net) (x : Tensor) : List NetEvent × Tensor :=
  (n.blocks.map (fun _ => NetEvent.applyBlock), n.forward x)

/-- The spec's sequential fold: x through the stages in list order, each
stage's output becoming the next stage's input; the result is the final
stage's output.  Stated from the spec's words, to be compared with
Net.forward. -/
def specSequential (stages : List (Tensor → Tensor)) (x : Tensor) : Tensor :=
  match stages with
  | [] => x
  | s :: rest => specSequential rest (s x)

/-- `DetectionBBoxNetwork` (spec name DetectionAugmentedNetwork): stores
a backbone model and a detection head; the fields are Options to model
that Python stores whatever it is given, None included. -/
structure DetectionBBoxNetwork where
  model : Option (Tensor → Tensor)
  detection_head : Option (Tensor → Tensor → Tensor)

/-- `DetectionBBoxNetwork.__init__`: stores both arguments with no
validation of any kind. -/
def DetectionBBoxNetwork.construct (model : Option (Tensor → Tensor))
    (detection_head : Option (Tensor → Tensor → Tensor)) :
    Except PyErr DetectionBBoxNetwork :=
  .ok ⟨model, detection_head⟩

/-- torch `t.view(t.shape[0], -1)`: on a rank-0 tensor `t.shape[0]`
raises IndexError; with first dim 0 the -1 dimension cannot be inferred
from 0 elements and torch raises RuntimeError; otherwise the result has
shape (d0, numel / d0) and shares the flat data unchanged. -/
def Tensor.viewFlat (t : Tensor) : Except PyErr Tensor :=
  match t.shape with
  | [] => .error .indexError
  | d0 :: _ =>
    if d0 = 0 then .error .runtimeError
    else .ok ⟨[d0, t.numel / d0], t.data⟩

/-- `DetectionBBoxNetwork.forward`: features = model(x); out =
detection_head(features, bboxes); return out.view(out.shape[0], -1).
Calling a stored None raises TypeError. -/
def DetectionBBoxNetwork.forward (n : DetectionBBoxNetwork) (x bboxes : Tensor) :
    Except PyErr Tensor :=
  match n.model with
  | none => .error .typeError
  | some m =>
    match n.detection_head with
    | none => .error .typeError
    | some h => Tensor.viewFlat (h (m x) bboxes)

/-- The argument of MultiPathWayWithFuse.forward: either a single tensor
(rejected by the isinstance assert) or a Python list of tensors. -/
inductive MPInput where
  | single (t : Tensor)
  | seq (xs : List Tensor)

/-- The result of MultiPathWayWithFuse.forward: the fusion output tensor
when a fusion module is present, otherwise the x_out list, whose slots
are tensors or None. -/
inductive MPOutput where
  | tensor (t : Tensor)
  | seq (xs : List (Option Tensor))
deriving DecidableEq

/-- `MultiPathWayWithFuse` (spec name MultiPathwayFuseNetwork): the
pathway block list (slots may be None), the optional fusion module, and
the inplace flag. -/
structure MultiPathWayWithFuse where
  multipathway_blocks : List (Option (Tensor → Tensor))
  multipathway_fusion : Option (List (Option Tensor) → Tensor)
  inplace : Bool

/-- The loop `for pathway_idx in range(len(self.multipathway_blocks))`:
walks the block list with its running index; a present block reads
`x[pathway_idx]` (IndexError when out of range) and writes the result to
`x_out[pathway_idx]`; a None block is skipped.  Returns the final x_out
list and the error, if one was raised. -/
def runPathways (x : List Tensor) :
    List (Option (Tensor → Tensor)) → Nat → List (Option Tensor) →
    List (Option Tensor) × Option PyErr
  | [], _, xout => (xout, none)
  | none :: rest, i, xout => runPathways x rest (i + 1) xout
  | some b :: rest, i, xout =>
    match x.get? i with
    | none => (xout, some .indexError)
    | some xi => runPathways x rest (i + 1) (xout.set i (some (b xi)))

/-- `MultiPathWayWithFuse.forward`: asserts the input is a list; x_out
is the input list itself when inplace, else `[None] * len(x)`; runs the
pathway loop; applies the fusion module to x_out when present, else
returns x_out. -/
def MultiPathWayWithFuse.forward (m : MultiPathWayWithFuse) (input : MPInput) :
    Except PyErr MPOutput :=
  match input with
  | .single _ => .error .assertionError
  | .seq x =>
    let xout0 : List (Option Tensor) :=
      if m.inplace then x.map some else List.replicate x.length none
    match runPathways x m.multipathway_blocks 0 xout0 with
    | (_, some e) => .error e
    | (xout, none) =>
      match m.multipathway_fusion with
      | some f => .ok (.tensor (f xout))
      | none => .ok (.seq xout)

/-- The contents of the caller's input list after forward returns on a
list argument: when inplace is true x_out aliases the caller's list, so
the caller observes the post-loop x_out; when inplace is false the
caller's list is untouched (its tensors wrapped in `some` only to share
the slot type with x_out). -/
def MultiPathWayWithFuse.callerListAfter (m : MultiPathWayWithFuse)
    (x : List Tensor) : List (Option Tensor) :=
  if m.inplace then (runPathways x m.multipathway_blocks 0 (x.map some)).1
  else x.map some

/-- The spec's description of the post-pathway output slots, one slot
per pathway: a present stage writes its output; an absent stage leaves
the input tensor (inplace) or the absent marker (fresh allocation). -/
def pathwaySlots (ip : Bool) :
    List (Option (Tensor → Tensor)) → List Tensor → List (Option Tensor)
  | [], _ => []
  | _ :: _, [] => []
  | some b :: bs, xi :: xs => some (b xi) :: pathwaySlots ip bs xs
  | none :: bs, xi :: xs =>
      (if ip then some xi else none) :: pathwaySlots ip bs xs

/-- The result of the pathway loop on the suffix of the lists from the
running index on: present blocks overwrite their slot with the stage
output, absent blocks and slots beyond the block list keep the incoming
x_out value. -/
def mergeSlots : List (Option (Tensor → Tensor)) → List Tensor →
    List (Option Tensor) → List (Option Tensor)
  | [], _, xout => xout
  | _ :: _, [], xout => xout
  | _ :: _, _ :: _, [] => []
  | none :: bs, _ :: xs, oi :: xout => oi :: mergeSlots bs xs xout
  | some b :: bs, xi :: xs, _ :: xout => some (b xi) :: mergeSlots bs xs xout

/-! ### Helper lemmas about the pathway loop -/

theorem get_append_cons {α : Type} (l : List α) (a : α) (r : List α) :
    (l ++ a :: r).get? l.length = some a := by
  induction l with
  | nil => rfl
  | cons hd tl ih => simpa using ih

theorem set_append_cons {α : Type} (l : List α) (a b : α) (r : List α) :
    (l ++ a :: r).set l.length b = l ++ b :: r := by
  induction l with
  | nil => rfl
  | cons hd tl ih => simp [ih]

/-- The pathway loop, started at index `xpre.length` on lists that agree
on a processed prefix, completes without error and merges the remaining
blocks into the remaining slots. -/
theorem runPathways_eq_append :
    ∀ (blocks : List (Option (PTV.Tensor → PTV.Tensor)))
      (xpre xs : List PTV.Tensor) (pre xout : List (Option PTV.Tensor)),
      pre.length = xpre.length →
      blocks.length ≤ xs.length →
      blocks.length ≤ xout.length →
      PTV.runPathways (xpre ++ xs) blocks xpre.length (pre ++ xout) =
        (pre ++ PTV.mergeSlots blocks xs xout, none) := by
  intro blocks
  induction blocks with
  | nil =>
    intro xpre xs pre xout hpre hxs hxout
    simp [PTV.runPathways, PTV.mergeSlots]
  | cons ob bs ih =>
    intro xpre xs pre xout hpre hxs hxout
    match xs, xout with
    | [], _ => exact absurd hxs (by simp)
    | _ :: _, [] => exact absurd hxout (by simp)
    | xi :: xs, oi :: xout =>
      have hxs' : bs.length ≤ xs.length := by
        simpa [Nat.succ_le_succ_iff] using hxs
      have hxout' : bs.length ≤ xout.length := by
        simpa [Nat.succ_le_succ_iff] using hxout
      have hpre' : (pre ++ [oi]).length = (xpre ++ [xi]).length := by
        simp [hpre]
      have hxlen : (xpre ++ [xi]).length = xpre.length + 1 := by simp
      match ob with
      | none =>
        show PTV.runPathways (xpre ++ xi :: xs) bs (xpre.length + 1)
            (pre ++ oi :: xout) =
          (pre ++ oi :: PTV.mergeSlots bs xs xout, none)
        have := ih (xpre ++ [xi]) xs (pre ++ [oi]) xout hpre' hxs' hxout'
        rw [hxlen] at this
        simpa using this
      | some b =>
        show (match (xpre ++ xi :: xs).get? xpre.length with
          | none => (pre ++ oi :: xout, some PTV.PyErr.indexError)
          | some v =>
            PTV.runPathways (xpre ++ xi :: xs) bs (xpre.length + 1)
              ((pre ++ oi :: xout).set xpre.length (some (b v)))) =
          (pre ++ some (b xi) :: PTV.mergeSlots bs xs xout, none)
        rw [get_append_cons xpre xi xs]
        have hset : (pre ++ oi :: xout).set xpre.length (some (b xi)) =
            pre ++ some (b xi) :: xout := by
          rw [← hpre]; exact set_append_cons pre oi (some (b xi)) xout
        dsimp only
        rw [hset]
        have := ih (xpre ++ [xi]) xs (pre ++ [some (b xi)]) xout
          (by simp [hpre]) hxs' hxout'
        rw [hxlen] at this
        simpa using this

/-- The pathway loop from index 0 over the whole lists. -/
theorem runPathways_zero (blocks : List (Option (PTV.Tensor → PTV.Tensor)))
    (x : List PTV.Tensor) (xout : List (Option PTV.Tensor))
    (hxs : blocks.length ≤ x.length) (hxout : blocks.length ≤ xout.length) :
    PTV.runPathways x blocks 0 xout = (PTV.mergeSlots blocks x xout, none) :=
  runPathways_eq_append blocks [] x [] xout rfl hxs hxout

theorem mergeSlots_map_some :
    ∀ (blocks : List (Option (PTV.Tensor → PTV.Tensor))) (x : List PTV.Tensor),
      blocks.length = x.length →
      PTV.mergeSlots blocks x (x.map some) = PTV.pathwaySlots true blocks x := by
  intro blocks
  induction blocks with
  | nil =>
    intro x h
    match x with
    | [] => rfl
  | cons ob bs ih =>
    intro x h
    match x with
    | xi :: xs =>
      have h' : bs.length = xs.length := by simpa using h
      match ob with
      | none => simp [PTV.mergeSlots, PTV.pathwaySlots, ih xs h']
      | some b => simp [PTV.mergeSlots, PTV.pathwaySlots, ih xs h']

theorem mergeSlots_replicate :
    ∀ (blocks : List (Option (PTV.Tensor → PTV.Tensor))) (x : List PTV.Tensor),
      blocks.length = x.length →
      PTV.mergeSlots blocks x (List.replicate x.length none) =
        PTV.pathwaySlots false blocks x := by
  intro blocks
  induction blocks with
  | nil =>
    intro x h
    match x with
    | [] => rfl
  | cons ob bs ih =>
    intro x h
    match x with
    | xi :: xs =>
      have h' : bs.length = xs.length := by simpa using h
      match ob with
      | none =>
        simp [PTV.mergeSlots, PTV.pathwaySlots, List.replicate, ih xs h']
      | some b =>
        simp [PTV.mergeSlots, PTV.pathwaySlots, List.replicate, ih xs h']

/-- forward on a length-matching list argument, characterized through
the spec-side slot description. -/
theorem forward_seq_eq (m : PTV.MultiPathWayWithFuse) (x : List PTV.Tensor)
    (hlen : m.multipathway_blocks.length = x.length) :
    m.forward (.seq x) =
      match m.multipathway_fusion with
      | some f =>
          .ok (.tensor (f (PTV.pathwaySlots m.inplace m.multipathway_blocks x)))
      | none =>
          .ok (.seq (PTV.pathwaySlots m.inplace m.multipathway_blocks x)) := by
  cases hip : m.inplace with
  | true =>
    simp only [PTV.MultiPathWayWithFuse.forward, hip, if_true,
      runPathways_zero m.multipathway_blocks x (x.map some) (le_of_eq hlen)
        (by simpa using le_of_eq hlen),
      mergeSlots_map_some m.multipathway_blocks x hlen]
  | false =>
    simp only [PTV.MultiPathWayWithFuse.forward, hip, Bool.false_eq_true,
      if_false,
      runPathways_zero m.multipathway_blocks x (List.replicate x.length none)
        (le_of_eq hlen) (by simpa using le_of_eq hlen),
      mergeSlots_replicate m.multipathway_blocks x hlen]

/-- forward on a length-matching list with no fusion module. -/
theorem forward_seq_none (m : PTV.MultiPathWayWithFuse) (x : List PTV.Tensor)
    (hlen : m.multipathway_blocks.length = x.length)
    (hfus : m.multipathway_fusion = none) :
    m.forward (.seq x) =
      .ok (.seq (PTV.pathwaySlots m.inplace m.multipathway_blocks x)) := by
  have h := forward_seq_eq m x hlen
  rw [hfus] at h
  exact h

/-- forward on a length-matching list with a fusion module present. -/
theorem forward_seq_some (m : PTV.MultiPathWayWithFuse) (x : List PTV.Tensor)
    (f : List (Option PTV.Tensor) → PTV.Tensor)
    (hlen : m.multipathway_blocks.length = x.length)
    (hfus : m.multipathway_fusion = some f) :
    m.forward (.seq x) =
      .ok (.tensor (f (PTV.pathwaySlots m.inplace m.multipathway_blocks x))) := by
  have h := forward_seq_eq m x hlen
  rw [hfus] at h
  exact h

/-- forward succeeds on any list at least as long as the block list,
returning the merged slots (possibly fused). -/
theorem forward_seq_le (m : PTV.MultiPathWayWithFuse) (x : List PTV.Tensor)
    (hlen : m.multipathway_blocks.length ≤ x.length) :
    m.forward (.seq x) =
      match m.multipathway_fusion with
      | some f => .ok (.tensor (f (PTV.mergeSlots m.multipathway_blocks x
          (if m.inplace then x.map some else List.replicate x.length none))))
      | none => .ok (.seq (PTV.mergeSlots m.multipathway_blocks x
          (if m.inplace then x.map some else List.replicate x.length none))) := by
  cases hip : m.inplace with
  | true =>
    simp only [PTV.MultiPathWayWithFuse.forward, hip, if_true,
      runPathways_zero m.multipathway_blocks x (x.map some) hlen
        (by simpa using hlen)]
  | false =>
    simp only [PTV.MultiPathWayWithFuse.forward, hip, Bool.false_eq_true,
      if_false,
      runPathways_zero m.multipathway_blocks x (List.replicate x.length none)
        hlen (by simpa using hlen)]

/-- The pathway loop can only fail with IndexError: both of its exits
either carry no error or the IndexError from reading `x[pathway_idx]`
out of range. -/
theorem runPathways_err :
    ∀ (blocks : List (Option (PTV.Tensor → PTV.Tensor)))
      (x : List PTV.Tensor) (i : Nat) (xout : List (Option PTV.Tensor)),
      (PTV.runPathways x blocks i xout).2 = none ∨
      (PTV.runPathways x blocks i xout).2 = some .indexError := by
  intro blocks
  induction blocks with
  | nil => intro x i xout; left; rfl
  | cons ob bs ih =>
    intro x i xout
    match ob with
    | none => exact ih x (i + 1) xout
    | some b =>
      simp only [PTV.runPathways]
      cases hg : x.get? i with
      | none => right; rfl
      | some xi => exact ih x (i + 1) (xout.set i (some (b xi)))

/-- The pathway loop does fail with IndexError whenever some present
block sits at an absolute index beyond the input list's length. -/
theorem runPathways_err_of_oob :
    ∀ (blocks : List (Option (PTV.Tensor → PTV.Tensor)))
      (x : List PTV.Tensor) (i : Nat) (xout : List (Option PTV.Tensor))
      (j : Nat) (b : PTV.Tensor → PTV.Tensor),
      blocks.get? j = some (some b) → x.length ≤ i + j →
      (PTV.runPathways x blocks i xout).2 = some .indexError := by
  intro blocks
  induction blocks with
  | nil => intro x i xout j b hb _; exact absurd hb (by simp)
  | cons ob bs ih =>
    intro x i xout j b hb hlen
    match ob with
    | none =>
      match j with
      | 0 => exact absurd hb (by simp)
      | j + 1 =>
        have hb' : bs.get? j = some (some b) := by simpa using hb
        have hlen' : x.length ≤ (i + 1) + j := by omega
        simpa [PTV.runPathways] using ih x (i + 1) xout j b hb' hlen'
    | some b0 =>
      match j with
      | 0 =>
        have hg : x.get? i = none := List.get?_eq_none.mpr (by omega)
        simp only [PTV.runPathways]
        rw [hg]
      | j + 1 =>
        have hb' : bs.get? j = some (some b) := by simpa using hb
        simp only [PTV.runPathways]
        cases hg : x.get? i with
        | none => rfl
        | some xi =>
          have hlen' : x.length ≤ (i + 1) + j := by omega
          exact ih x (i + 1) (xout.set i (some (b0 xi))) j b hb' hlen'

/-- forward on a list argument propagates the pathway loop's error. -/
theorem forward_seq_of_err (m : PTV.MultiPathWayWithFuse)
    (x : List PTV.Tensor) (e : PTV.PyErr)
    (h : (PTV.runPathways x m.multipathway_blocks 0
      (if m.inplace then x.map some else List.replicate x.length none)).2 =
      some e) :
    m.forward (.seq x) = .error e := by
  simp only [PTV.MultiPathWayWithFuse.forward]
  cases hp : PTV.runPathways x m.multipathway_blocks 0
      (if m.inplace then x.map some else List.replicate x.length none) with
  | mk xout oe =>
    rw [hp] at h
    simp only at h
    subst h
    rfl

/-- An error coming out of forward on a list argument can only be the
IndexError of a too-short list: otherwise the loop completes and
forward returns ok. -/
theorem forward_seq_err (m : PTV.MultiPathWayWithFuse)
    (x : List PTV.Tensor) (e : PTV.PyErr)
    (h : m.forward (.seq x) = .error e) :
    e = PTV.PyErr.indexError ∧
    x.length < m.multipathway_blocks.length := by
  have hlt : x.length < m.multipathway_blocks.length := by
    by_contra hle
    rw [forward_seq_le m x (Nat.le_of_not_lt hle)] at h
    cases hf : m.multipathway_fusion with
    | some f => rw [hf] at h; simp at h
    | none => rw [hf] at h; simp at h
  refine ⟨?_, hlt⟩
  have herr := runPathways_err m.multipathway_blocks x 0
    (if m.inplace then x.map some else List.replicate x.length none)
  simp only [PTV.MultiPathWayWithFuse.forward] at h
  cases hp : PTV.runPathways x m.multipathway_blocks 0
      (if m.inplace then x.map some else List.replicate x.length none) with
  | mk xout oe =>
    rw [hp] at h herr
    cases oe with
    | none =>
      cases hf : m.multipathway_fusion with
      | some f => rw [hf] at h; simp at h
      | none => rw [hf] at h; simp at h
    | some e' =>
      have he : e' = e := by simpa using h
      rcases herr with h1 | h1
      · exact absurd h1 (by simp)
      · rw [← he]; simpa using h1

theorem pathwaySlots_length (ip : Bool) :
    ∀ (blocks : List (Option (PTV.Tensor → PTV.Tensor))) (x : List PTV.Tensor),
      blocks.length = x.length →
      (PTV.pathwaySlots ip blocks x).length = x.length := by
  intro blocks
  induction blocks with
  | nil =>
    intro x h
    cases x with
    | nil => rfl
    | cons _ _ => exact absurd h (by simp)
  | cons ob bs ih =>
    intro x h
    cases x with
    | nil => exact absurd h (by simp)
    | cons xi xs =>
      have h' : bs.length = xs.length := by simpa using h
      match ob with
      | some b => simpa [PTV.pathwaySlots] using ih xs h'
      | none => simpa [PTV.pathwaySlots] using ih xs h'

theorem pathwaySlots_get_present (ip : Bool) :
    ∀ (i : Nat) (blocks : List (Option (PTV.Tensor → PTV.Tensor)))
      (x : List PTV.Tensor) (b : PTV.Tensor → PTV.Tensor) (xi : PTV.Tensor),
      blocks.get? i = some (some b) → x.get? i = some xi →
      (PTV.pathwaySlots ip blocks x).get? i = some (some (b xi)) := by
  intro i
  induction i with
  | zero =>
    intro blocks x b xi hb hx
    match blocks, x with
    | [], _ => exact absurd hb (by simp)
    | _ :: _, [] => exact absurd hx (by simp)
    | ob :: bs, xj :: xs =>
      have hob : ob = some b := by simpa using hb
      have hxj : xj = xi := by simpa using hx
      subst hob; subst hxj
      rfl
  | succ n ih =>
    intro blocks x b xi hb hx
    match blocks, x with
    | [], _ => exact absurd hb (by simp)
    | _ :: _, [] => exact absurd hx (by simp)
    | ob :: bs, xj :: xs =>
      have hb' : bs.get? n = some (some b) := by simpa using hb
      have hx' : xs.get? n = some xi := by simpa using hx
      match ob with
      | some b' => simpa [PTV.pathwaySlots] using ih bs xs b xi hb' hx'
      | none => simpa [PTV.pathwaySlots] using ih bs xs b xi hb' hx'

theorem pathwaySlots_get_absent (ip : Bool) :
    ∀ (i : Nat) (blocks : List (Option (PTV.Tensor → PTV.Tensor)))
      (x : List PTV.Tensor) (xi : PTV.Tensor),
      blocks.get? i = some none → x.get? i = some xi →
      (PTV.pathwaySlots ip blocks x).get? i =
        some (if ip then some xi else none) := by
  intro i
  induction i with
  | zero =>
    intro blocks x xi hb hx
    match blocks, x with
    | [], _ => exact absurd hb (by simp)
    | _ :: _, [] => exact absurd hx (by simp)
    | ob :: bs, xj :: xs =>
      have hob : ob = none := by simpa using hb
      have hxj : xj = xi := by simpa using hx
      subst hob; subst hxj
      rfl
  | succ n ih =>
    intro blocks x xi hb hx
    match blocks, x with
    | [], _ => exact absurd hb (by simp)
    | _ :: _, [] => exact absurd hx (by simp)
    | ob :: bs, xj :: xs =>
      have hb' : bs.get? n = some none := by simpa using hb
      have hx' : xs.get? n = some xi := by simpa using hx
      match ob with
      | some b' => simpa [PTV.pathwaySlots] using ih bs xs xi hb' hx'
      | none => simpa [PTV.pathwaySlots] using ih bs xs xi hb' hx'

/-- Net.forward is the left fold of the input through the blocks, i.e.
the spec's sequential feed. -/
theorem foldl_eq_specSequential :
    ∀ (bs : List (PTV.Tensor → PTV.Tensor)) (x : PTV.Tensor),
      bs.foldl (fun t b => b t) x = PTV.specSequential bs x := by
  intro bs
  induction bs with
  | nil => intro x; rfl
  | cons b bs ih => intro x; exact ih (b x)

/-- A trace of block applications contains no weight-initialization
event. -/
theorem count_applyBlock (l : List (PTV.Tensor → PTV.Tensor)) :
    (l.map (fun _ => PTV.NetEvent.applyBlock)).count
      PTV.NetEvent.initNetWeights = 0 := by
  rw [List.count_eq_zero]
  intro hmem
  rcases List.mem_map.mp hmem with ⟨_, _, h⟩
  exact PTV.NetEvent.noConfusion h

/-! ### Concrete stages and tensors for witnesses and counterexamples -/

/-- The identity stage. -/
def idStage : PTV.Tensor → PTV.Tensor := fun t => t

/-- A stage that doubles every data entry, keeping the shape. -/
def dblStage : PTV.Tensor → PTV.Tensor :=
  fun t => ⟨t.shape, t.data.map (fun v => 2 * v)⟩

/-- A fusion module recording only how many slots it received. -/
def lenFusion : List (Option PTV.Tensor) → PTV.Tensor :=
  fun slots => ⟨[slots.length], []⟩

/-- A detection head whose output has a zero-sized first axis. -/
def zeroHead : PTV.Tensor → PTV.Tensor → PTV.Tensor := fun _ _ => ⟨[0, 2, 3], []⟩

/-- A detection head with output shape (2, 1, 3). -/
def shapedHead : PTV.Tensor → PTV.Tensor → PTV.Tensor :=
  fun _ _ => ⟨[2, 1, 3], [1, 2, 3, 4, 5, 6]⟩

def tA : PTV.Tensor := ⟨[1], [5]⟩

def tB : PTV.Tensor := ⟨[1], [7]⟩

/-- One pathway block, no fusion, inplace. -/
def mpLen1 : PTV.MultiPathWayWithFuse := ⟨[some PTV.dblStage], none, true⟩

/-- Two pathways, second slot absent, no fusion, inplace. -/
def mpMixed : PTV.MultiPathWayWithFuse :=
  ⟨[some PTV.dblStage, none], none, true⟩

/-- Two present pathways with a fusion module, not inplace. -/
def mpFuse : PTV.MultiPathWayWithFuse :=
  ⟨[some PTV.dblStage, some PTV.idStage], some PTV.lenFusion, false⟩

/-- Two pathways, the second present, no fusion, inplace; fed a length-1
list its second block reads out of range. -/
def mpShort : PTV.MultiPathWayWithFuse :=
  ⟨[none, some PTV.dblStage], none, true⟩

/-! ### Claim theorems -/

/-- C1: for every non-empty stage list S and every input tensor x,
SequentialBlockNetwork(S) constructs, and its run on x equals the left
fold of x through the stages of S in list order, each stage's output
becoming the next stage's input, the result being the final stage's
output. -/
theorem c1_run_is_left_fold (bs : List (PTV.Tensor → PTV.Tensor))
    (_hne : bs ≠ []) (x : PTV.Tensor) :
    ∃ n : PTV.Net, PTV.Net.construct (some bs) = .ok n ∧
      n.forward x = PTV.specSequential bs x :=
  ⟨⟨bs⟩, rfl, foldl_eq_specSequential bs x⟩

/-- Witness for C1 at the one-stage list [dblStage] and the tensor tA. -/
theorem c1_witness :
    ([PTV.dblStage] ≠ ([] : List (PTV.Tensor → PTV.Tensor))) ∧
    ∃ n : PTV.Net, PTV.Net.construct (some [PTV.dblStage]) = .ok n ∧
      n.forward PTV.tA = PTV.specSequential [PTV.dblStage] PTV.tA :=
  ⟨List.cons_ne_nil _ _,
   c1_run_is_left_fold [PTV.dblStage] (List.cons_ne_nil _ _) PTV.tA⟩

/-- C5 counterexample: a present but empty block list is accepted by
Net.__init__ (the assert only rejects None), contradicting the claim
that it fails with InvalidConfiguration. -/
theorem c5_counterexample :
    PTV.Net.construct (some ([] : List (PTV.Tensor → PTV.Tensor))) =
      .ok ⟨[]⟩ ∧
    ∀ e : PTV.PyErr,
      PTV.Net.construct (some ([] : List (PTV.Tensor → PTV.Tensor))) ≠
        .error e :=
  ⟨rfl, fun _ h => nomatch h⟩

/-- C5 amended: construction fails (with the assertion standing for
InvalidConfiguration) exactly when the block list is absent (None); any
present list, the empty list included, is accepted. -/
theorem c5_amended :
    PTV.Net.construct none = .error .assertionError ∧
    ∀ bs : List (PTV.Tensor → PTV.Tensor),
      PTV.Net.construct (some bs) = .ok ⟨bs⟩ :=
  ⟨rfl, fun _ => rfl⟩

/-- C6 counterexample: DetectionBBoxNetwork.__init__ performs no
validation, so construction with both the backbone and the head absent
succeeds, contradicting the claim that it fails with
InvalidConfiguration. -/
theorem c6_counterexample :
    PTV.DetectionBBoxNetwork.construct none none = .ok ⟨none, none⟩ ∧
    ∀ e : PTV.PyErr,
      PTV.DetectionBBoxNetwork.construct none none ≠ .error e :=
  ⟨rfl, fun _ h => nomatch h⟩

/-- C6 amended: construction stores its arguments unchecked and always
succeeds, backbone or head absent included; a missing sub-module only
surfaces later, as a TypeError when run calls it. -/
theorem c6_amended :
    (∀ (mo : Option (PTV.Tensor → PTV.Tensor))
       (ho : Option (PTV.Tensor → PTV.Tensor → PTV.Tensor)),
       PTV.DetectionBBoxNetwork.construct mo ho = .ok ⟨mo, ho⟩) ∧
    (∀ (ho : Option (PTV.Tensor → PTV.Tensor → PTV.Tensor))
       (x b : PTV.Tensor),
       PTV.DetectionBBoxNetwork.forward ⟨none, ho⟩ x b =
         .error .typeError) ∧
    (∀ (mf : PTV.Tensor → PTV.Tensor) (x b : PTV.Tensor),
       PTV.DetectionBBoxNetwork.forward ⟨some mf, none⟩ x b =
         .error .typeError) :=
  ⟨fun _ _ => rfl, fun _ _ _ => rfl, fun _ _ _ => rfl⟩

/-- C8: on any successful construction the event trace is exactly
"store the blocks, then initialize the weights", so the initialization
runs exactly once, immediately after the stages are stored and before
any run; and no forward trace ever contains it again. -/
theorem c8_init_weights_once (bs : List (PTV.Tensor → PTV.Tensor)) :
    (PTV.Net.constructTrace (some bs)).1 =
      [.storeBlocks, .initNetWeights] ∧
    (PTV.Net.constructTrace (some bs)).1.count
      PTV.NetEvent.initNetWeights = 1 ∧
    ∀ (n : PTV.Net) (x : PTV.Tensor),
      (PTV.Net.forwardTrace n x).1.count PTV.NetEvent.initNetWeights = 0 :=
  ⟨rfl, rfl, fun n _ => count_applyBlock n.blocks⟩

/-- C9: a SequentialBlockNetwork built from a present but empty block
list is accepted, and its run is the identity: the loop body never
executes, so the input tensor is returned unchanged. -/
theorem c9_empty_net_identity :
    PTV.Net.construct (some ([] : List (PTV.Tensor → PTV.Tensor))) =
      .ok ⟨[]⟩ ∧
    ∀ x : PTV.Tensor, PTV.Net.forward ⟨[]⟩ x = x :=
  ⟨rfl, fun _ => rfl⟩

/-- C2: with no fusion module and a length-matching list input, forward
returns the slot list in which an absent pathway block leaves the
original input tensor when inplace (pass-through) and the absent marker
when not inplace, while every present block's slot holds the block
applied to its input tensor, in both modes. -/
theorem c2_absent_slot_semantics (m : PTV.MultiPathWayWithFuse)
    (x : List PTV.Tensor)
    (hlen : m.multipathway_blocks.length = x.length)
    (hfus : m.multipathway_fusion = none) :
    ∃ out : List (Option PTV.Tensor),
      m.forward (.seq x) = .ok (.seq out) ∧
      (∀ i xi, m.multipathway_blocks.get? i = some none →
        x.get? i = some xi →
        out.get? i = some (if m.inplace then some xi else none)) ∧
      (∀ i b xi, m.multipathway_blocks.get? i = some (some b) →
        x.get? i = some xi → out.get? i = some (some (b xi))) := by
  refine ⟨PTV.pathwaySlots m.inplace m.multipathway_blocks x,
    forward_seq_none m x hlen hfus, ?_, ?_⟩
  · intro i xi hb hx
    exact pathwaySlots_get_absent m.inplace i _ _ xi hb hx
  · intro i b xi hb hx
    exact pathwaySlots_get_present m.inplace i _ _ b xi hb hx

/-- Witness for C2 at the two-pathway net [dblStage, None], no fusion,
inplace, on the list [tA, tB]. -/
theorem c2_witness :
    (PTV.mpMixed.multipathway_blocks.length = [PTV.tA, PTV.tB].length ∧
     PTV.mpMixed.multipathway_fusion = none) ∧
    ∃ out : List (Option PTV.Tensor),
      PTV.mpMixed.forward (.seq [PTV.tA, PTV.tB]) = .ok (.seq out) ∧
      (∀ i xi, PTV.mpMixed.multipathway_blocks.get? i = some none →
        [PTV.tA, PTV.tB].get? i = some xi →
        out.get? i = some (if PTV.mpMixed.inplace then some xi else none)) ∧
      (∀ i b xi,
        PTV.mpMixed.multipathway_blocks.get? i = some (some b) →
        [PTV.tA, PTV.tB].get? i = some xi →
        out.get? i = some (some (b xi))) :=
  ⟨⟨rfl, rfl⟩, c2_absent_slot_semantics PTV.mpMixed [PTV.tA, PTV.tB] rfl rfl⟩

/-- C3: with a fusion module present and a length-matching list input,
forward returns exactly the fusion applied to the post-pathway slot
list, as a single tensor; with no fusion module it returns the slot
list itself, of the same length as the input. -/
theorem c3_fusion_exactness (m : PTV.MultiPathWayWithFuse)
    (x : List PTV.Tensor)
    (hlen : m.multipathway_blocks.length = x.length) :
    (∀ f, m.multipathway_fusion = some f →
      m.forward (.seq x) =
        .ok (.tensor
          (f (PTV.pathwaySlots m.inplace m.multipathway_blocks x)))) ∧
    (m.multipathway_fusion = none →
      m.forward (.seq x) =
        .ok (.seq (PTV.pathwaySlots m.inplace m.multipathway_blocks x)) ∧
      (PTV.pathwaySlots m.inplace m.multipathway_blocks x).length =
        x.length) :=
  ⟨fun f hf => forward_seq_some m x f hlen hf,
   fun hf => ⟨forward_seq_none m x hlen hf,
     pathwaySlots_length m.inplace m.multipathway_blocks x hlen⟩⟩

/-- Witness for C3 at the fused two-pathway net mpFuse on [tA, tB]: the
result is the single fused tensor. -/
theorem c3_witness :
    PTV.mpFuse.forward (.seq [PTV.tA, PTV.tB]) =
      .ok (.tensor (PTV.lenFusion
        (PTV.pathwaySlots PTV.mpFuse.inplace
          PTV.mpFuse.multipathway_blocks [PTV.tA, PTV.tB]))) :=
  (c3_fusion_exactness PTV.mpFuse [PTV.tA, PTV.tB] rfl).1 PTV.lenFusion rfl

/-- C10: with inplace true and no fusion module, forward's returned
sequence is the caller's own buffer after the call: the caller's list
is mutated so that every present block's slot holds the block's output
while absent-block slots keep their original tensor, and the returned
sequence is exactly that mutated buffer. -/
theorem c10_inplace_aliasing (m : PTV.MultiPathWayWithFuse)
    (x : List PTV.Tensor)
    (hlen : m.multipathway_blocks.length = x.length)
    (hfus : m.multipathway_fusion = none) (hip : m.inplace = true) :
    m.forward (.seq x) = .ok (.seq (m.callerListAfter x)) ∧
    (∀ i b xi, m.multipathway_blocks.get? i = some (some b) →
      x.get? i = some xi →
      (m.callerListAfter x).get? i = some (some (b xi))) ∧
    (∀ i xi, m.multipathway_blocks.get? i = some none →
      x.get? i = some xi →
      (m.callerListAfter x).get? i = some (some xi)) := by
  have hcall : m.callerListAfter x =
      PTV.pathwaySlots true m.multipathway_blocks x := by
    unfold PTV.MultiPathWayWithFuse.callerListAfter
    rw [hip]
    simp only [if_pos trivial,
      runPathways_zero m.multipathway_blocks x (x.map some)
        (le_of_eq hlen) (by simpa using le_of_eq hlen)]
    exact mergeSlots_map_some m.multipathway_blocks x hlen
  refine ⟨?_, ?_, ?_⟩
  · rw [forward_seq_none m x hlen hfus, hip, hcall]
  · intro i b xi hb hx
    rw [hcall]
    exact pathwaySlots_get_present true i _ _ b xi hb hx
  · intro i xi hb hx
    rw [hcall]
    simpa using pathwaySlots_get_absent true i _ _ xi hb hx

/-- Witness for C10 at mpMixed on [tA, tB]: the returned sequence is
the caller's mutated buffer, slot 0 overwritten, slot 1 kept. -/
theorem c10_witness :
    (PTV.mpMixed.multipathway_blocks.length = [PTV.tA, PTV.tB].length ∧
     PTV.mpMixed.multipathway_fusion = none ∧ PTV.mpMixed.inplace = true) ∧
    PTV.mpMixed.forward (.seq [PTV.tA, PTV.tB]) =
      .ok (.seq (PTV.mpMixed.callerListAfter [PTV.tA, PTV.tB])) ∧
    PTV.mpMixed.callerListAfter [PTV.tA, PTV.tB] =
      [some (PTV.dblStage PTV.tA), some PTV.tB] :=
  ⟨⟨rfl, rfl, rfl⟩,
   (c10_inplace_aliasing PTV.mpMixed [PTV.tA, PTV.tB] rfl rfl rfl).1, rfl⟩

/-- C7 counterexample: a list of length 2 fed to a one-pathway net runs
to completion and returns a sequence, no InvalidArgument is raised,
contradicting the claim that any length other than N fails. -/
theorem c7_counterexample :
    PTV.mpLen1.forward (.seq [PTV.tA, PTV.tB]) =
      .ok (.seq [some (PTV.dblStage PTV.tA), some PTV.tB]) ∧
    ∀ e : PTV.PyErr,
      PTV.mpLen1.forward (.seq [PTV.tA, PTV.tB]) ≠ .error e :=
  ⟨rfl, fun _ h => nomatch h⟩

/-- C7 amended: the assert (standing for InvalidArgument) fires exactly
on a single-tensor argument: a single tensor always fails with it and a
list never does.  The length is never validated: every list at least as
long as the pathway count N runs to completion; any error on a list
argument is the IndexError of a list shorter than N, raised when some
present block's index is out of range. -/
theorem c7_amended (m : PTV.MultiPathWayWithFuse) (t : PTV.Tensor)
    (x : List PTV.Tensor) :
    m.forward (.single t) = .error .assertionError ∧
    (m.multipathway_blocks.length ≤ x.length →
      ∃ r : PTV.MPOutput, m.forward (.seq x) = .ok r) ∧
    (∀ e : PTV.PyErr, m.forward (.seq x) = .error e →
      e = PTV.PyErr.indexError ∧
      x.length < m.multipathway_blocks.length) ∧
    (∀ (j : Nat) (b : PTV.Tensor → PTV.Tensor),
      m.multipathway_blocks.get? j = some (some b) → x.length ≤ j →
      m.forward (.seq x) = .error .indexError) := by
  refine ⟨rfl, ?_, fun e h => forward_seq_err m x e h, ?_⟩
  · intro hlen
    rw [forward_seq_le m x hlen]
    cases m.multipathway_fusion with
    | some f => exact ⟨_, rfl⟩
    | none => exact ⟨_, rfl⟩
  · intro j b hb hj
    exact forward_seq_of_err m x _
      (runPathways_err_of_oob m.multipathway_blocks x 0 _ j b hb
        (by simpa using hj))

/-- Witness for C7: the one-pathway net mpLen1 succeeds on the length-2
list [tA, tB], and the two-pathway net mpShort, whose present block
sits at index 1, fails with IndexError on the length-1 list [tA]. -/
theorem c7_witness :
    (PTV.mpLen1.multipathway_blocks.length ≤ [PTV.tA, PTV.tB].length ∧
     PTV.mpLen1.forward (.single PTV.tA) = .error .assertionError ∧
     ∃ r : PTV.MPOutput,
       PTV.mpLen1.forward (.seq [PTV.tA, PTV.tB]) = .ok r) ∧
    (PTV.mpShort.multipathway_blocks.get? 1 = some (some PTV.dblStage) ∧
     [PTV.tA].length ≤ 1 ∧
     PTV.mpShort.forward (.seq [PTV.tA]) = .error .indexError) :=
  ⟨⟨by decide, (c7_amended PTV.mpLen1 PTV.tA [PTV.tA, PTV.tB]).1,
    (c7_amended PTV.mpLen1 PTV.tA [PTV.tA, PTV.tB]).2.1 (by decide)⟩,
   ⟨rfl, by decide,
    (c7_amended PTV.mpShort PTV.tA [PTV.tA]).2.2.2 1 PTV.dblStage rfl
      (by decide)⟩⟩

/-- C4 counterexample: with a head whose output has shape (0, 2, 3) the
claimed result of shape (0, 6) is not produced; the view with an
inferred dimension cannot be performed on a zero-element tensor and the
call fails. -/
theorem c4_counterexample :
    PTV.DetectionBBoxNetwork.forward
      ⟨some PTV.idStage, some PTV.zeroHead⟩ PTV.tA PTV.tB =
      .error .runtimeError ∧
    ∀ r : PTV.Tensor,
      PTV.DetectionBBoxNetwork.forward
        ⟨some PTV.idStage, some PTV.zeroHead⟩ PTV.tA PTV.tB ≠ .ok r :=
  ⟨rfl, fun _ h => nomatch h⟩

/-- C4 amended: run equals the head output reshaped to two dimensions
provided the head output's first axis N is nonzero: shape (N, a, b)
yields shape (N, a*b) with the flat row-major data unchanged, and a
rank-1 head output of shape (N,) yields shape (N, 1), not an error;
with N = 0 the reshape itself fails. -/
theorem c4_flatten_shapes (mf : PTV.Tensor → PTV.Tensor)
    (hd : PTV.Tensor → PTV.Tensor → PTV.Tensor) (x b : PTV.Tensor) :
    (∀ N a c, (hd (mf x) b).shape = [N, a, c] → 0 < N →
      PTV.DetectionBBoxNetwork.forward ⟨some mf, some hd⟩ x b =
        .ok ⟨[N, a * c], (hd (mf x) b).data⟩) ∧
    (∀ N, (hd (mf x) b).shape = [N] → 0 < N →
      PTV.DetectionBBoxNetwork.forward ⟨some mf, some hd⟩ x b =
        .ok ⟨[N, 1], (hd (mf x) b).data⟩) := by
  constructor
  · intro N a c hsh hN
    have hne : N ≠ 0 := Nat.pos_iff_ne_zero.mp hN
    show PTV.Tensor.viewFlat (hd (mf x) b) = _
    unfold PTV.Tensor.viewFlat PTV.Tensor.numel
    rw [hsh]
    simp [hne, Nat.mul_div_cancel_left _ hN, Nat.mul_assoc]
  · intro N hsh hN
    have hne : N ≠ 0 := Nat.pos_iff_ne_zero.mp hN
    show PTV.Tensor.viewFlat (hd (mf x) b) = _
    unfold PTV.Tensor.viewFlat PTV.Tensor.numel
    rw [hsh]
    simp [hne, Nat.div_self hN]

/-- Witness for C4 at the head with output shape (2, 1, 3): the result
has shape (2, 3) and the same six data entries. -/
theorem c4_witness :
    ((PTV.shapedHead (PTV.idStage PTV.tA) PTV.tB).shape = [2, 1, 3] ∧
      0 < 2) ∧
    PTV.DetectionBBoxNetwork.forward
      ⟨some PTV.idStage, some PTV.shapedHead⟩ PTV.tA PTV.tB =
      .ok ⟨[2, 1 * 3], (PTV.shapedHead (PTV.idStage PTV.tA) PTV.tB).data⟩ :=
  ⟨⟨rfl, by decide⟩,
   (c4_flatten_shapes PTV.idStage PTV.shapedHead PTV.tA PTV.tB).1
     2 1 3 rfl (by decide)⟩

end PTV
